import Mathlib

/-!
Verification development for the ODLab object-detection repository.

The repository's algorithmic kernels (box IoU, label assignment, box
decoding, feature-pyramid fusion, positional embeddings, DETR-style
transformer forward passes) are shallowly embedded here.  Real-valued
tensors are modelled entrywise over `ℚ`; transcendental functions
(`exp`, `log`, `sigmoid`, `sin`, `cos`, fractional powers) that the
source obtains from the host framework are taken as explicit function
parameters, constrained only by the properties the source relies on.
Tensor dimensions are made explicit as list lengths or bounds on
indices.
-/

namespace ODLab

/-- An axis-aligned box in `(x1, y1, x2, y2)` form, one row of a
`[N, 4]` box tensor. -/
structure Box where
  x1 : ℚ
  y1 : ℚ
  x2 : ℚ
  y2 : ℚ
deriving DecidableEq, Repr

instance : Inhabited Box := ⟨⟨0, 0, 0, 0⟩⟩

/-- Source `torchvision.ops.boxes.box_area`: `(x2 - x1) * (y2 - y1)`. -/
def box_area (b : Box) : ℚ :=
  (b.x2 - b.x1) * (b.y2 - b.y1)

/-- One entry of the intersection matrix of `box_iou`
(matcher.py lines 11-15): `lt = max` of the top-left corners,
`rb = min` of the bottom-right corners, `wh = (rb - lt).clamp(min=0)`,
`inter = wh[...,0] * wh[...,1]`. -/
def interPair (b1 b2 : Box) : ℚ :=
  (max 0 (min b1.x2 b2.x2 - max b1.x1 b2.x1)) *
  (max 0 (min b1.y2 b2.y2 - max b1.y1 b2.y1))

/-- One entry of the union matrix of `box_iou` (matcher.py line 17):
`union = area1[:, None] + area2 - inter`. -/
def unionPair (b1 b2 : Box) : ℚ :=
  box_area b1 + box_area b2 - interPair b1 b2

/-- One entry of the IoU matrix of `box_iou` (matcher.py line 19):
`iou = inter / union`. -/
def iouPair (b1 b2 : Box) : ℚ :=
  interPair b1 b2 / unionPair b1 b2

/-- Function `box_iou` (matcher.py lines 7-20): entrywise semantics of the
broadcasted tensor program, returning the `[N, M]` IoU matrix and the
`[N, M]` union matrix as nested lists. -/
def box_iou (boxes1 boxes2 : List Box) : List (List ℚ) × List (List ℚ) :=
  (boxes1.map (fun b1 => boxes2.map (fun b2 => iouPair b1 b2)),
   boxes1.map (fun b1 => boxes2.map (fun b2 => unionPair b1 b2)))

/-- A box is well formed when `x1 ≤ x2` and `y1 ≤ y2`. -/
def WellFormed (b : Box) : Prop := b.x1 ≤ b.x2 ∧ b.y1 ≤ b.y2

instance (b : Box) : Decidable (WellFormed b) := by
  unfold WellFormed; infer_instance

-- Helper lemmas about a single IoU entry.

lemma interPair_nonneg (b1 b2 : Box) : 0 ≤ interPair b1 b2 := by
  unfold interPair
  exact mul_nonneg (le_max_left 0 _) (le_max_left 0 _)

lemma interPair_le_area_left {b1 b2 : Box} (h1 : WellFormed b1) :
    interPair b1 b2 ≤ box_area b1 := by
  obtain ⟨hx, hy⟩ := h1
  unfold interPair box_area
  have hwx : max 0 (min b1.x2 b2.x2 - max b1.x1 b2.x1) ≤ b1.x2 - b1.x1 := by
    apply max_le (by linarith)
    have := min_le_left b1.x2 b2.x2
    have := le_max_left b1.x1 b2.x1
    linarith
  have hwy : max 0 (min b1.y2 b2.y2 - max b1.y1 b2.y1) ≤ b1.y2 - b1.y1 := by
    apply max_le (by linarith)
    have := min_le_left b1.y2 b2.y2
    have := le_max_left b1.y1 b2.y1
    linarith
  exact mul_le_mul hwx hwy (le_max_left 0 _) (by linarith)

lemma interPair_le_area_right {b1 b2 : Box} (h2 : WellFormed b2) :
    interPair b1 b2 ≤ box_area b2 := by
  obtain ⟨hx, hy⟩ := h2
  unfold interPair box_area
  have hwx : max 0 (min b1.x2 b2.x2 - max b1.x1 b2.x1) ≤ b2.x2 - b2.x1 := by
    apply max_le (by linarith)
    have := min_le_right b1.x2 b2.x2
    have := le_max_right b1.x1 b2.x1
    linarith
  have hwy : max 0 (min b1.y2 b2.y2 - max b1.y1 b2.y1) ≤ b2.y2 - b2.y1 := by
    apply max_le (by linarith)
    have := min_le_right b1.y2 b2.y2
    have := le_max_right b1.y1 b2.y1
    linarith
  exact mul_le_mul hwx hwy (le_max_left 0 _) (by linarith)

lemma iouPair_bounds {b1 b2 : Box} (h1 : WellFormed b1) (h2 : WellFormed b2)
    (hu : 0 < unionPair b1 b2) :
    0 ≤ iouPair b1 b2 ∧ iouPair b1 b2 ≤ 1 := by
  constructor
  · exact div_nonneg (interPair_nonneg b1 b2) hu.le
  · rw [iouPair, div_le_one hu]
    have ha1 := @interPair_le_area_left b1 b2 h1
    have ha2 := @interPair_le_area_right b1 b2 h2
    unfold unionPair
    linarith

/-- Entry `(i, j)` of a matrix stored as nested lists, with default `0`. -/
def entry (m : List (List ℚ)) (i j : Nat) : ℚ :=
  (m.getD i []).getD j 0

lemma entry_matrix (f : Box → Box → ℚ) (bs1 bs2 : List Box) {i j : Nat}
    (hi : i < bs1.length) (hj : j < bs2.length) :
    entry (bs1.map (fun b1 => bs2.map (fun b2 => f b1 b2))) i j
      = f (bs1.getD i default) (bs2.getD j default) := by
  simp [entry, List.getD_eq_getElem?_getD, List.getElem?_map,
        List.getElem?_eq_getElem hi, List.getElem?_eq_getElem hj]


/-- C2: for well-formed box lists, every entry `(i, j)` of the pair
returned by `box_iou` satisfies: the union entry is
`area(boxes1[i]) + area(boxes2[j]) - inter(i, j)`, the intersection is
the clamped product of overlaps of the edges, the IoU entry is
`inter / union`, and whenever the union entry is positive the IoU entry
lies in `[0, 1]`. -/
theorem box_iou_spec (boxes1 boxes2 : List Box) (i j : Nat)
    (hi : i < boxes1.length) (hj : j < boxes2.length)
    (hwf1 : ∀ b ∈ boxes1, WellFormed b) (hwf2 : ∀ b ∈ boxes2, WellFormed b) :
    entry (box_iou boxes1 boxes2).2 i j
        = box_area (boxes1.getD i default) + box_area (boxes2.getD j default)
          - interPair (boxes1.getD i default) (boxes2.getD j default)
    ∧ interPair (boxes1.getD i default) (boxes2.getD j default)
        = max 0 (min (boxes1.getD i default).x2 (boxes2.getD j default).x2
                 - max (boxes1.getD i default).x1 (boxes2.getD j default).x1)
          * max 0 (min (boxes1.getD i default).y2 (boxes2.getD j default).y2
                   - max (boxes1.getD i default).y1 (boxes2.getD j default).y1)
    ∧ entry (box_iou boxes1 boxes2).1 i j
        = interPair (boxes1.getD i default) (boxes2.getD j default)
          / entry (box_iou boxes1 boxes2).2 i j
    ∧ (0 < entry (box_iou boxes1 boxes2).2 i j →
        0 ≤ entry (box_iou boxes1 boxes2).1 i j
        ∧ entry (box_iou boxes1 boxes2).1 i j ≤ 1) := by
  have h1 : entry (box_iou boxes1 boxes2).1 i j
      = iouPair (boxes1.getD i default) (boxes2.getD j default) :=
    entry_matrix iouPair boxes1 boxes2 hi hj
  have h2 : entry (box_iou boxes1 boxes2).2 i j
      = unionPair (boxes1.getD i default) (boxes2.getD j default) :=
    entry_matrix unionPair boxes1 boxes2 hi hj
  have hb1 : WellFormed (boxes1.getD i default) := by
    have : boxes1.getD i default ∈ boxes1 := by
      rw [List.getD_eq_getElem?_getD, List.getElem?_eq_getElem hi]
      exact List.getElem_mem hi
    exact hwf1 _ this
  have hb2 : WellFormed (boxes2.getD j default) := by
    have : boxes2.getD j default ∈ boxes2 := by
      rw [List.getD_eq_getElem?_getD, List.getElem?_eq_getElem hj]
      exact List.getElem_mem hj
    exact hwf2 _ this
  refine ⟨by rw [h2]; rfl, rfl, by rw [h1, h2]; rfl, fun hu => ?_⟩
  rw [h1, h2] at *
  exact iouPair_bounds hb1 hb2 hu

/-- Witness for C2 at concrete boxes `[0,0,2,2]` and `[1,1,3,3]`. -/
theorem box_iou_spec_witness :
    ((0 : Nat) < [(⟨0, 0, 2, 2⟩ : Box)].length
     ∧ (0 : Nat) < [(⟨1, 1, 3, 3⟩ : Box)].length
     ∧ (∀ b ∈ [(⟨0, 0, 2, 2⟩ : Box)], WellFormed b)
     ∧ (∀ b ∈ [(⟨1, 1, 3, 3⟩ : Box)], WellFormed b))
    ∧ (0 < entry (box_iou [(⟨0, 0, 2, 2⟩ : Box)] [(⟨1, 1, 3, 3⟩ : Box)]).2 0 0 →
        0 ≤ entry (box_iou [(⟨0, 0, 2, 2⟩ : Box)] [(⟨1, 1, 3, 3⟩ : Box)]).1 0 0
        ∧ entry (box_iou [(⟨0, 0, 2, 2⟩ : Box)] [(⟨1, 1, 3, 3⟩ : Box)]).1 0 0 ≤ 1) :=
  ⟨⟨by decide, by decide, by decide, by decide⟩,
   (box_iou_spec [⟨0, 0, 2, 2⟩] [⟨1, 1, 3, 3⟩] 0 0
      (by decide) (by decide) (by decide) (by decide)).2.2.2⟩

/-- Entry `(i, j)` of a Bool matrix stored as nested lists, default `false`. -/
def entryB (m : List (List Bool)) (i j : Nat) : Bool :=
  (m.getD i []).getD j false

lemma entryB_matrix {α β : Type} (f : α → β → Bool) (xs : List α) (ys : List β)
    (da : α) (db : β) {i j : Nat} (hi : i < xs.length) (hj : j < ys.length) :
    entryB (xs.map (fun x => ys.map (fun y => f x y))) i j
      = f (xs.getD i da) (ys.getD j db) := by
  simp [entryB, List.getD_eq_getElem?_getD, List.getElem?_map,
        List.getElem?_eq_getElem hi, List.getElem?_eq_getElem hj]

/-- Regression deltas `(l, t, r, b)` of the FCOS head, one row of a
`[M, 4]` regression tensor. -/
structure Deltas where
  l : ℚ
  t : ℚ
  r : ℚ
  b : ℚ
deriving DecidableEq, Repr

/-- Method `FCOSHead.decode_boxes` (fcos_head.py lines 119-130):
`pred_x1y1 = anchors - pred_deltas[..., :2]`,
`pred_x2y2 = anchors + pred_deltas[..., 2:]`, for one anchor point and
one delta row. -/
def fcos_decode_boxes (pred_deltas : Deltas) (anchor : ℚ × ℚ) : Box :=
  ⟨anchor.1 - pred_deltas.l, anchor.2 - pred_deltas.t,
   anchor.1 + pred_deltas.r, anchor.2 + pred_deltas.b⟩

/-- C6: `FCOSHead.decode_boxes` inverts delta encoding: decoding the
deltas `(px - x1, py - y1, x2 - px, y2 - py)` against anchor
`p = (px, py)` returns exactly the original box, and on an arbitrary
delta `(l, t, r, b)` it returns `(px - l, py - t, px + r, py + b)`. -/
theorem fcos_decode_boxes_inverse (p : ℚ × ℚ) (b : Box) (d : Deltas) :
    fcos_decode_boxes ⟨p.1 - b.x1, p.2 - b.y1, b.x2 - p.1, b.y2 - p.2⟩ p = b
    ∧ fcos_decode_boxes d p
        = ⟨p.1 - d.l, p.2 - d.t, p.1 + d.r, p.2 + d.b⟩ := by
  refine ⟨?_, rfl⟩
  cases b
  simp only [fcos_decode_boxes, Box.mk.injEq]
  refine ⟨by ring, by ring, by ring, by ring⟩

/-- Method `SimOTAMatcher.find_inside_points` (matcher.py lines 95-113), one
entry: `lt = anchor - gt[..., :2]`, `rb = gt[..., 2:] - anchor`,
`is_in_gts = cat([lt, rb]).min(dim=-1) > 0`. -/
def isInsideBox (gt : Box) (anchor : ℚ × ℚ) : Bool :=
  decide (0 < min (min (anchor.1 - gt.x1) (anchor.2 - gt.y1))
                  (min (gt.x2 - anchor.1) (gt.y2 - anchor.2)))

/-- Method `SimOTAMatcher.find_inside_points` as an `[N, M]` Bool matrix. -/
def find_inside_points (gt_bboxes : List Box) (anchors : List (ℚ × ℚ)) :
    List (List Bool) :=
  gt_bboxes.map (fun b => anchors.map (fun a => isInsideBox b a))

/-- Method `HungarianMatcher.find_inside_points` (matcher.py lines 215-233),
textually identical to the SimOTA version. -/
def hungarian_find_inside_points (gt_bboxes : List Box)
    (anchors : List (ℚ × ℚ)) : List (List Bool) :=
  gt_bboxes.map (fun b => anchors.map (fun a => isInsideBox b a))

lemma isInsideBox_iff (gt : Box) (a : ℚ × ℚ) :
    isInsideBox gt a = true ↔
      (gt.x1 < a.1 ∧ a.1 < gt.x2 ∧ gt.y1 < a.2 ∧ a.2 < gt.y2) := by
  simp [isInsideBox, lt_min_iff, sub_pos]
  tauto

/-- C10: `find_inside_points` (identical in `SimOTAMatcher` and
`HungarianMatcher`) marks anchor `j` inside ground-truth box `i`
exactly when all four inequalities are strict; an anchor lying exactly
on a boundary of the box is not marked inside. -/
theorem find_inside_points_strict (gt_bboxes : List Box)
    (anchors : List (ℚ × ℚ)) (i j : Nat)
    (hi : i < gt_bboxes.length) (hj : j < anchors.length) :
    hungarian_find_inside_points gt_bboxes anchors
        = find_inside_points gt_bboxes anchors
    ∧ (entryB (find_inside_points gt_bboxes anchors) i j = true ↔
        ((gt_bboxes.getD i default).x1 < (anchors.getD j default).1
         ∧ (anchors.getD j default).1 < (gt_bboxes.getD i default).x2
         ∧ (gt_bboxes.getD i default).y1 < (anchors.getD j default).2
         ∧ (anchors.getD j default).2 < (gt_bboxes.getD i default).y2))
    ∧ (((anchors.getD j default).1 = (gt_bboxes.getD i default).x1
        ∨ (anchors.getD j default).1 = (gt_bboxes.getD i default).x2
        ∨ (anchors.getD j default).2 = (gt_bboxes.getD i default).y1
        ∨ (anchors.getD j default).2 = (gt_bboxes.getD i default).y2) →
        entryB (find_inside_points gt_bboxes anchors) i j = false) := by
  have hent : entryB (find_inside_points gt_bboxes anchors) i j
      = isInsideBox (gt_bboxes.getD i default) (anchors.getD j default) :=
    entryB_matrix isInsideBox gt_bboxes anchors default default hi hj
  refine ⟨rfl, by rw [hent]; exact isInsideBox_iff _ _, fun hb => ?_⟩
  rw [hent]
  rw [← Bool.not_eq_true, isInsideBox_iff]
  rintro ⟨h1, h2, h3, h4⟩
  rcases hb with h | h | h | h <;> linarith

/-- Witness for C10 at a concrete box and an anchor on its boundary. -/
theorem find_inside_points_strict_witness :
    ((0 : Nat) < [(⟨0, 0, 2, 2⟩ : Box)].length
     ∧ (0 : Nat) < [((0 : ℚ), (1 : ℚ))].length)
    ∧ (((0 : ℚ), (1 : ℚ)).1 = (⟨0, 0, 2, 2⟩ : Box).x1 →
        entryB (find_inside_points [(⟨0, 0, 2, 2⟩ : Box)] [((0 : ℚ), (1 : ℚ))]) 0 0
          = false) :=
  ⟨⟨by decide, by decide⟩,
   fun h =>
     (find_inside_points_strict [⟨0, 0, 2, 2⟩] [((0 : ℚ), (1 : ℚ))] 0 0
        (by decide) (by decide)).2.2 (Or.inl h)⟩

/-- An anchor box in `(cx, cy, w, h)` center form, one row of the
RetinaNet `[M, 4]` anchor tensor. -/
structure CtrBox where
  cx : ℚ
  cy : ℚ
  w : ℚ
  h : ℚ
deriving DecidableEq, Repr

/-- One row `(dx, dy, dw, dh)` of the RetinaNet regression tensor. -/
structure CtrReg where
  dx : ℚ
  dy : ℚ
  dw : ℚ
  dh : ℚ
deriving DecidableEq, Repr

/-- Method `RetinaNetHead.decode_boxes` (retinanet_head.py lines 131-152) for
one anchor row and one regression row.  The host framework's `exp` is
the parameter `e`, and `DEFAULT_SCALE_CLAMP = log(1000/16)`
(retinanet_head.py line 12) is the parameter `scale_clamp`; the source
computes `torch.clamp(pred_dwdh, max=scale_clamp)` before
exponentiating, i.e. `min` with the clamp value. -/
def retinanet_decode_boxes (e : ℚ → ℚ) (scale_clamp : ℚ)
    (anchor : CtrBox) (pred_reg : CtrReg) : Box :=
  let pred_ctr_x := anchor.cx + pred_reg.dx * anchor.w
  let pred_ctr_y := anchor.cy + pred_reg.dy * anchor.h
  let dw := min pred_reg.dw scale_clamp
  let dh := min pred_reg.dh scale_clamp
  let pred_w := anchor.w * e dw
  let pred_h := anchor.h * e dh
  ⟨pred_ctr_x - pred_w / 2, pred_ctr_y - pred_h / 2,
   pred_ctr_x + pred_w / 2, pred_ctr_y + pred_h / 2⟩

/-- C7: for any monotone positive exponential `e` with
`e scale_clamp = 1000/16` (true of `exp` at
`DEFAULT_SCALE_CLAMP = log(1000/16)`), and any anchor with strictly
positive width and height, `RetinaNetHead.decode_boxes` returns a box
with `x2 ≥ x1` and `y2 ≥ y1` whose width and height are at most the
anchor's width and height times `1000/16`. -/
theorem retinanet_decode_boxes_spec (e : ℚ → ℚ) (scale_clamp : ℚ)
    (anchor : CtrBox) (pred_reg : CtrReg)
    (hmono : Monotone e) (hpos : ∀ x, 0 < e x)
    (hclamp : e scale_clamp = 1000 / 16)
    (hw : 0 < anchor.w) (hh : 0 < anchor.h) :
    (retinanet_decode_boxes e scale_clamp anchor pred_reg).x1
        ≤ (retinanet_decode_boxes e scale_clamp anchor pred_reg).x2
    ∧ (retinanet_decode_boxes e scale_clamp anchor pred_reg).y1
        ≤ (retinanet_decode_boxes e scale_clamp anchor pred_reg).y2
    ∧ (retinanet_decode_boxes e scale_clamp anchor pred_reg).x2
        - (retinanet_decode_boxes e scale_clamp anchor pred_reg).x1
        ≤ anchor.w * (1000 / 16)
    ∧ (retinanet_decode_boxes e scale_clamp anchor pred_reg).y2
        - (retinanet_decode_boxes e scale_clamp anchor pred_reg).y1
        ≤ anchor.h * (1000 / 16) := by
  have hew : 0 < e (min pred_reg.dw scale_clamp) := hpos _
  have heh : 0 < e (min pred_reg.dh scale_clamp) := hpos _
  have hbw : e (min pred_reg.dw scale_clamp) ≤ 1000 / 16 := by
    rw [← hclamp]; exact hmono (min_le_right _ _)
  have hbh : e (min pred_reg.dh scale_clamp) ≤ 1000 / 16 := by
    rw [← hclamp]; exact hmono (min_le_right _ _)
  have hww : 0 < anchor.w * e (min pred_reg.dw scale_clamp) := mul_pos hw hew
  have hhh : 0 < anchor.h * e (min pred_reg.dh scale_clamp) := mul_pos hh heh
  have hwb : anchor.w * e (min pred_reg.dw scale_clamp)
      ≤ anchor.w * (1000 / 16) :=
    mul_le_mul_of_nonneg_left hbw hw.le
  have hhb : anchor.h * e (min pred_reg.dh scale_clamp)
      ≤ anchor.h * (1000 / 16) :=
    mul_le_mul_of_nonneg_left hbh hh.le
  simp only [retinanet_decode_boxes]
  refine ⟨by linarith, by linarith, by linarith, by linarith⟩

/-- Witness for C7 with the constant exponential `1000/16`, a `2 × 2`
anchor, and zero regression. -/
theorem retinanet_decode_boxes_spec_witness :
    (Monotone (fun _ : ℚ => (1000 / 16 : ℚ))
     ∧ (∀ x : ℚ, 0 < (fun _ : ℚ => (1000 / 16 : ℚ)) x)
     ∧ (fun _ : ℚ => (1000 / 16 : ℚ)) 0 = 1000 / 16
     ∧ (0 : ℚ) < (⟨0, 0, 2, 2⟩ : CtrBox).w
     ∧ (0 : ℚ) < (⟨0, 0, 2, 2⟩ : CtrBox).h)
    ∧ (retinanet_decode_boxes (fun _ => 1000 / 16) 0 ⟨0, 0, 2, 2⟩ ⟨0, 0, 0, 0⟩).x1
        ≤ (retinanet_decode_boxes (fun _ => 1000 / 16) 0 ⟨0, 0, 2, 2⟩ ⟨0, 0, 0, 0⟩).x2 :=
  ⟨⟨monotone_const, fun _ => by norm_num, rfl, by norm_num, by norm_num⟩,
   (retinanet_decode_boxes_spec (fun _ => 1000 / 16) 0 ⟨0, 0, 2, 2⟩ ⟨0, 0, 0, 0⟩
      monotone_const (fun _ => by norm_num) rfl (by norm_num) (by norm_num)).1⟩

/-!
`BasicFPN.forward` (fpn.py lines 48-79).  Feature maps are abstract
values of a type `α`; `proj i` and `smooth i` are `input_projs[i]` and
`smooth_layers[i]` (indexed, as in the source, over the reversed
`in_dims`, i.e. coarse to fine); `comb f p` is
`f + F.interpolate(p, size=f.shape[2:])`; `p6conv` and `p7conv` are
`p6_conv` and `p7_conv`.
-/

/-- The top-down loop of `BasicFPN.forward` (fpn.py lines 59-63):
each remaining reversed feature is projected, combined with the
previous (coarser) feature, smoothed, and inserted at the front of the
output list. -/
def fpnTopDown {α : Type} (comb : α → α → α) (proj smooth : Nat → α → α) :
    Nat → α → List α → List α → List α
  | _, _, outs, [] => outs
  | i, prev, outs, f :: rest =>
      let p := comb (proj i f) prev
      fpnTopDown comb proj smooth (i + 1) p (smooth i p :: outs) rest

/-- Method `BasicFPN.forward` (fpn.py lines 48-79): the input list is
reversed, the top level is projected and smoothed, the top-down loop
runs over the remaining levels, then P6 (from the coarsest input when
`from_c5`, else from the coarsest pyramid output `outputs[-1]`) and P7
(from P6) are appended under their flags. -/
def basicFPN_forward {α : Type} [Inhabited α] (comb : α → α → α)
    (proj smooth : Nat → α → α) (p6conv p7conv : α → α)
    (p6_feat p7_feat from_c5 : Bool) (feats : List α) : List α :=
  match feats.reverse with
  | [] => []
  | f0 :: rest =>
      let prev := proj 0 f0
      let pyramid := fpnTopDown comb proj smooth 1 prev [smooth 0 prev] rest
      if p6_feat then
        let p6 := if from_c5 then p6conv f0 else p6conv (pyramid.getLastD default)
        if p7_feat then pyramid ++ [p6] ++ [p7conv p6]
        else pyramid ++ [p6]
      else pyramid

lemma fpnTopDown_length {α : Type} (comb : α → α → α)
    (proj smooth : Nat → α → α) (rest : List α) (i : Nat) (prev : α)
    (outs : List α) :
    (fpnTopDown comb proj smooth i prev outs rest).length
      = rest.length + outs.length := by
  induction rest generalizing i prev outs with
  | nil => simp [fpnTopDown]
  | cons f r ih =>
      simp only [fpnTopDown, ih, List.length_cons]
      omega

lemma fpnTopDown_getLastD {α : Type} (comb : α → α → α)
    (proj smooth : Nat → α → α) (rest : List α) (i : Nat) (prev : α)
    (outs : List α) (d : α) (h : outs ≠ []) :
    (fpnTopDown comb proj smooth i prev outs rest).getLastD d
      = outs.getLastD d := by
  induction rest generalizing i prev outs with
  | nil => simp [fpnTopDown]
  | cons f r ih =>
      simp only [fpnTopDown]
      rw [ih _ _ _ (by simp)]
      rcases outs with _ | ⟨a, l⟩
      · exact absurd rfl h
      · simp [List.getLastD_cons]

lemma getD_append_length {α : Type} (l : List α) (x : α) (t : List α) (d : α) :
    (l ++ x :: t).getD l.length d = x := by
  rw [List.getD_eq_getElem?_getD, List.getElem?_append_right (Nat.le_refl _)]
  simp

/-- C8: `BasicFPN.forward` returns `len(in_dims)` pyramid outputs in
fine-to-coarse order (the pyramid prefix is independent of the P6/P7
flags), plus one P6 output when `p6_feat` is set — computed from the
coarsest input when `from_c5`, otherwise from the coarsest pyramid
output — plus one P7 output exactly when both `p6_feat` and `p7_feat`
are set; with `p6_feat` unset the output length is `len(in_dims)` even
when `p7_feat` is set. -/
theorem basicFPN_forward_spec {α : Type} [Inhabited α] (comb : α → α → α)
    (proj smooth : Nat → α → α) (p6conv p7conv : α → α)
    (p6_feat p7_feat from_c5 : Bool) (feats : List α) (hne : feats ≠ []) :
    (basicFPN_forward comb proj smooth p6conv p7conv p6_feat p7_feat from_c5
        feats).length
      = feats.length + (if p6_feat then 1 else 0)
        + (if p6_feat && p7_feat then 1 else 0)
    ∧ (basicFPN_forward comb proj smooth p6conv p7conv p6_feat p7_feat from_c5
        feats).take feats.length
      = basicFPN_forward comb proj smooth p6conv p7conv false false from_c5
          feats
    ∧ (p6_feat = true → from_c5 = true →
        (basicFPN_forward comb proj smooth p6conv p7conv p6_feat p7_feat
            from_c5 feats).getD feats.length default
          = p6conv (feats.getLastD default))
    ∧ (p6_feat = true → from_c5 = false →
        (basicFPN_forward comb proj smooth p6conv p7conv p6_feat p7_feat
            from_c5 feats).getD feats.length default
          = p6conv (smooth 0 (proj 0 (feats.getLastD default))))
    ∧ (p6_feat = true → p7_feat = true →
        (basicFPN_forward comb proj smooth p6conv p7conv p6_feat p7_feat
            from_c5 feats).getD (feats.length + 1) default
          = p7conv (if from_c5 then p6conv (feats.getLastD default)
                    else p6conv (smooth 0 (proj 0 (feats.getLastD default)))))
    ∧ (p6_feat = false →
        (basicFPN_forward comb proj smooth p6conv p7conv p6_feat p7_feat
            from_c5 feats).length = feats.length) := by
  have hrev : feats.reverse ≠ [] := by
    simpa using hne
  obtain ⟨f0, rest, hr⟩ := List.exists_cons_of_ne_nil hrev
  have hf0 : feats.getLastD default = f0 := by
    rw [List.getLastD_eq_getLast?, ← List.head?_reverse, hr]
    rfl
  have hlen : feats.length = rest.length + 1 := by
    have := congrArg List.length hr
    simpa using this
  set prev := proj 0 f0 with hprev
  set pyramid := fpnTopDown comb proj smooth 1 prev [smooth 0 prev] rest
    with hpyr
  have hplen : pyramid.length = feats.length := by
    rw [hpyr, fpnTopDown_length]
    simp [hlen]
  have hlast : pyramid.getLastD default = smooth 0 prev := by
    rw [hpyr, fpnTopDown_getLastD _ _ _ _ _ _ _ _ (by simp)]
    rfl
  have hbody : ∀ b6 b7 : Bool,
      basicFPN_forward comb proj smooth p6conv p7conv b6 b7 from_c5 feats
        = if b6 then
            (if b7 then
              pyramid
                ++ [if from_c5 then p6conv f0
                    else p6conv (pyramid.getLastD default)]
                ++ [p7conv (if from_c5 then p6conv f0
                            else p6conv (pyramid.getLastD default))]
             else
              pyramid
                ++ [if from_c5 then p6conv f0
                    else p6conv (pyramid.getLastD default)])
          else pyramid := by
    intro b6 b7
    rw [basicFPN_forward, hr]
  have hbase : basicFPN_forward comb proj smooth p6conv p7conv false false
      from_c5 feats = pyramid := by
    rw [hbody]; rfl
  refine ⟨?_, ?_, ?_, ?_, ?_, ?_⟩
  · rw [hbody]
    cases p6_feat <;> cases p7_feat <;> simp [hplen]
  · rw [hbody, hbase]
    cases p6_feat <;> cases p7_feat <;>
      simp [← hplen, List.take_left, List.take_append]
  · intro h6 hc5
    subst h6; subst hc5
    rw [hf0]
    cases p7_feat
    · rw [show basicFPN_forward comb proj smooth p6conv p7conv true false true
            feats = pyramid ++ [p6conv f0] from by rw [hbody]; rfl]
      rw [← hplen, getD_append_length]
    · rw [show basicFPN_forward comb proj smooth p6conv p7conv true true true
            feats = pyramid ++ [p6conv f0] ++ [p7conv (p6conv f0)] from by
          rw [hbody]; rfl]
      rw [List.append_assoc]
      simp only [List.singleton_append]
      rw [← hplen, getD_append_length]
  · intro h6 hc5
    subst h6; subst hc5
    rw [hf0, ← hprev, ← hlast]
    cases p7_feat
    · rw [show basicFPN_forward comb proj smooth p6conv p7conv true false false
            feats = pyramid ++ [p6conv (pyramid.getLastD default)] from by
          rw [hbody]; rfl]
      rw [← hplen, getD_append_length]
    · rw [show basicFPN_forward comb proj smooth p6conv p7conv true true false
            feats = pyramid ++ [p6conv (pyramid.getLastD default)]
              ++ [p7conv (p6conv (pyramid.getLastD default))] from by
          rw [hbody]; rfl]
      rw [List.append_assoc]
      simp only [List.singleton_append]
      rw [← hplen, getD_append_length]
  · intro h6 h7
    subst h6; subst h7
    rw [hf0, ← hprev]
    cases from_c5
    · rw [show basicFPN_forward comb proj smooth p6conv p7conv true true false
            feats = pyramid ++ [p6conv (pyramid.getLastD default)]
              ++ [p7conv (p6conv (pyramid.getLastD default))] from by
          rw [hbody]; rfl]
      have hlen2 : feats.length + 1
          = (pyramid ++ [p6conv (pyramid.getLastD default)]).length := by
        simp [hplen]
      rw [hlen2, getD_append_length, hlast]
      rfl
    · rw [show basicFPN_forward comb proj smooth p6conv p7conv true true true
            feats = pyramid ++ [p6conv f0] ++ [p7conv (p6conv f0)] from by
          rw [hbody]; rfl]
      have hlen2 : feats.length + 1 = (pyramid ++ [p6conv f0]).length := by
        simp [hplen]
      rw [hlen2, getD_append_length]
      rfl
  · intro h6
    rw [hbody, h6]
    simp [hplen]

/-- Witness for C8 on a three-level input over `α = Nat` with
identity-style layers. -/
theorem basicFPN_forward_spec_witness :
    ([1, 2, 3] ≠ ([] : List Nat))
    ∧ (basicFPN_forward (fun a b => a + b) (fun _ a => a) (fun _ a => a)
        (fun a => a) (fun a => a) true true false [1, 2, 3]).length
      = [1, 2, 3].length + (if true then 1 else 0)
        + (if true && true then 1 else 0) :=
  ⟨by decide,
   (basicFPN_forward_spec (fun a b => a + b) (fun _ a => a) (fun _ a => a)
      (fun a => a) (fun a => a) true true false [1, 2, 3] (by decide)).1⟩

/-!
`PlainDETRTransformer.pos2posembed` (transformer.py lines 112-137),
modelled along the last tensor dimension.  `rsin`/`rcos` stand for the
framework's `sin`/`cos`, `dim_t j` for
`temperature ** (2 * (j // 2) / num_pos_feats)` (an irrational power,
hence abstract), and `scale` for `2 * math.pi`.  Python exceptions
become `Except` errors: indexing `pos[..., 1]` on a last dimension
shorter than 2 is an IndexError, `torch.stack` on unequal sizes is a
RuntimeError, and the final `else` branch is the source's ValueError.
-/

/-- The classes of runtime error that `pos2posembed` can raise. -/
inductive TorchError where
  | indexError : TorchError
  | runtimeError : TorchError
  | valueError : TorchError
deriving DecidableEq, Repr

/-- The elements of even index of a list (`t[0::2]`). -/
def evenIdx : List ℚ → List ℚ
  | [] => []
  | [a] => [a]
  | a :: _ :: rest => a :: evenIdx rest

/-- The elements of odd index of a list (`t[1::2]`). -/
def oddIdx : List ℚ → List ℚ
  | [] => []
  | [_] => []
  | _ :: b :: rest => b :: oddIdx rest

/-- Expression `torch.stack((v[0::2].sin(), v[1::2].cos()), dim=-1).flatten(-2)`:
interleaves the sines of even entries with the cosines of odd entries;
`stack` raises a RuntimeError when the two halves have unequal
length. -/
def sinCosFlatten (rsin rcos : ℚ → ℚ) (v : List ℚ) :
    Except TorchError (List ℚ) :=
  let s := (evenIdx v).map rsin
  let c := (oddIdx v).map rcos
  if s.length = c.length then
    Except.ok ((s.zip c).flatMap (fun p => [p.1, p.2]))
  else Except.error TorchError.runtimeError

/-- Method `PlainDETRTransformer.pos2posembed` along the last dimension
(transformer.py lines 112-137): the input is scaled, `pos_x`/`pos_y`
are built from components 0 and 1 (IndexError when fewer than 2), then
the result is assembled according to `pos.size(-1)`; a last dimension
other than 2 or 4 reaches the ValueError branch.  `w_embed`/`h_embed`
multiply the already-scaled components 2 and 3 by `scale` again, as
the source does. -/
def pos2posembed (rsin rcos : ℚ → ℚ) (dim_t : Nat → ℚ) (scale : ℚ)
    (d_model : Nat) (pos : List ℚ) : Except TorchError (List ℚ) :=
  let num_pos_feats := d_model / 2
  let divs : ℚ → List ℚ :=
    fun v => (List.range num_pos_feats).map (fun j => v / dim_t j)
  match pos with
  | p0 :: p1 :: rest => do
      let pos_x ← sinCosFlatten rsin rcos (divs (p0 * scale))
      let pos_y ← sinCosFlatten rsin rcos (divs (p1 * scale))
      if pos.length = 2 then
        Except.ok (pos_y ++ pos_x)
      else if pos.length = 4 then
        match rest with
        | [p2, p3] => do
            let pos_w ← sinCosFlatten rsin rcos (divs (p2 * scale * scale))
            let pos_h ← sinCosFlatten rsin rcos (divs (p3 * scale * scale))
            Except.ok (pos_y ++ pos_x ++ pos_w ++ pos_h)
        | _ => Except.error TorchError.indexError
      else Except.error TorchError.valueError
  | _ => Except.error TorchError.indexError

theorem evenIdx_length : ∀ l : List ℚ, (evenIdx l).length = (l.length + 1) / 2
  | [] => by simp [evenIdx]
  | [_] => by simp [evenIdx]
  | _ :: _ :: rest => by
      simp only [evenIdx, List.length_cons, evenIdx_length rest]
      omega

theorem oddIdx_length : ∀ l : List ℚ, (oddIdx l).length = l.length / 2
  | [] => by simp [oddIdx]
  | [_] => by simp [oddIdx]
  | _ :: _ :: rest => by
      simp only [oddIdx, List.length_cons, oddIdx_length rest]
      omega

lemma length_interleave (l : List (ℚ × ℚ)) :
    (l.flatMap (fun p => [p.1, p.2])).length = 2 * l.length := by
  induction l with
  | nil => rfl
  | cons p t ih => simp [ih]; omega

lemma sinCosFlatten_ok (rsin rcos : ℚ → ℚ) (v : List ℚ)
    (hv : v.length % 2 = 0) :
    ∃ w, sinCosFlatten rsin rcos v = Except.ok w ∧ w.length = v.length := by
  have he : ((evenIdx v).map rsin).length = v.length / 2 := by
    rw [List.length_map, evenIdx_length]; omega
  have ho : ((oddIdx v).map rcos).length = v.length / 2 := by
    rw [List.length_map, oddIdx_length]
  refine ⟨(((evenIdx v).map rsin).zip ((oddIdx v).map rcos)).flatMap
    (fun p => [p.1, p.2]), ?_, ?_⟩
  · unfold sinCosFlatten
    rw [if_pos (by rw [he, ho])]
  · rw [length_interleave, List.length_zip, he, ho]
    omega

lemma sinCosFlatten_err (rsin rcos : ℚ → ℚ) (v : List ℚ)
    (hv : v.length % 2 = 1) :
    sinCosFlatten rsin rcos v = Except.error TorchError.runtimeError := by
  unfold sinCosFlatten
  rw [if_neg]
  rw [List.length_map, List.length_map, evenIdx_length, oddIdx_length]
  omega

/-- C9 (amended): `pos2posembed` raises the ValueError branch exactly
when `num_pos_feats = d_model // 2` is even and the last dimension of
`pos` is at least 2 and neither 2 nor 4.  For a last dimension of 0 or
1, indexing `pos[..., 1]` raises an IndexError before the check, for
any `d_model`.  When `d_model // 2` is even, an error occurs exactly
when the last dimension is neither 2 nor 4; when `d_model // 2` is
odd, `torch.stack` raises a RuntimeError for every last dimension of
at least 2, before the `if/elif/else` is reached.  With `d_model`
divisible by 4, a last dimension of 2 yields the concatenation of a y-
and an x-embedding of `d_model / 2` entries each (total `d_model`),
and a last dimension of 4 also appends w- and h-embeddings (total
`2 * d_model`). -/
theorem pos2posembed_spec (rsin rcos : ℚ → ℚ) (dim_t : Nat → ℚ) (scale : ℚ)
    (d_model : Nat) (pos : List ℚ) :
    (pos.length < 2 →
        pos2posembed rsin rcos dim_t scale d_model pos
          = Except.error TorchError.indexError)
    ∧ (pos2posembed rsin rcos dim_t scale d_model pos
          = Except.error TorchError.valueError
        ↔ ((d_model / 2) % 2 = 0 ∧ 2 ≤ pos.length
            ∧ pos.length ≠ 2 ∧ pos.length ≠ 4))
    ∧ ((d_model / 2) % 2 = 0 →
        ((∃ e, pos2posembed rsin rcos dim_t scale d_model pos
            = Except.error e)
          ↔ (pos.length ≠ 2 ∧ pos.length ≠ 4)))
    ∧ ((d_model / 2) % 2 = 1 → 2 ≤ pos.length →
        pos2posembed rsin rcos dim_t scale d_model pos
          = Except.error TorchError.runtimeError)
    ∧ (d_model % 4 = 0 → pos.length = 2 →
        ∃ py px, pos2posembed rsin rcos dim_t scale d_model pos
            = Except.ok (py ++ px)
          ∧ py.length = d_model / 2 ∧ px.length = d_model / 2
          ∧ (py ++ px).length = d_model)
    ∧ (d_model % 4 = 0 → pos.length = 4 →
        ∃ py px pw ph, pos2posembed rsin rcos dim_t scale d_model pos
            = Except.ok (py ++ px ++ pw ++ ph)
          ∧ py.length = d_model / 2 ∧ px.length = d_model / 2
          ∧ pw.length = d_model / 2 ∧ ph.length = d_model / 2
          ∧ (py ++ px ++ pw ++ ph).length = 2 * d_model) := by
  have hflE : (d_model / 2) % 2 = 0 → ∀ v : ℚ, ∃ w, sinCosFlatten rsin rcos
      ((List.range (d_model / 2)).map (fun j => v / dim_t j)) = Except.ok w
      ∧ w.length = d_model / 2 := by
    intro hn2 v
    obtain ⟨w, hw, hlen⟩ := sinCosFlatten_ok rsin rcos
      ((List.range (d_model / 2)).map (fun j => v / dim_t j)) (by
      rw [List.length_map, List.length_range]; exact hn2)
    exact ⟨w, hw, by rw [hlen, List.length_map, List.length_range]⟩
  have hflO : (d_model / 2) % 2 = 1 → ∀ v : ℚ, sinCosFlatten rsin rcos
      ((List.range (d_model / 2)).map (fun j => v / dim_t j))
        = Except.error TorchError.runtimeError := by
    intro hn1 v
    exact sinCosFlatten_err rsin rcos _ (by
      rw [List.length_map, List.length_range]; exact hn1)
  rcases pos with _ | ⟨p0, _ | ⟨p1, rest⟩⟩
  · refine ⟨fun _ => rfl, ?_, ?_, ?_, by simp, by simp⟩
    · exact iff_of_false (by simp [pos2posembed]) (by simp)
    · intro _
      exact iff_of_true ⟨TorchError.indexError, rfl⟩ (by simp)
    · intro _ h2
      exact absurd h2 (by simp)
  · refine ⟨fun _ => rfl, ?_, ?_, ?_, by simp, by simp⟩
    · exact iff_of_false (by simp [pos2posembed]) (by simp)
    · intro _
      exact iff_of_true ⟨TorchError.indexError, rfl⟩ (by simp)
    · intro _ h2
      exact absurd h2 (by simp)
  · by_cases hpar : (d_model / 2) % 2 = 0
    · obtain ⟨px, hpx, hpxl⟩ := hflE hpar (p0 * scale)
      obtain ⟨py, hpy, hpyl⟩ := hflE hpar (p1 * scale)
      rcases rest with _ | ⟨r1, _ | ⟨r2, _ | ⟨r3, rest3⟩⟩⟩
      · -- last dimension 2
        have hres : pos2posembed rsin rcos dim_t scale d_model [p0, p1]
            = Except.ok (py ++ px) := by
          simp only [pos2posembed, bind, Except.bind, hpx, hpy]
          rfl
        refine ⟨by simp, ?_, ?_, ?_, fun hd4 _ => ?_, by simp⟩
        · exact iff_of_false (by simp [hres]) (by simp)
        · intro _
          exact iff_of_false (by simp [hres]) (by simp)
        · intro h1
          omega
        · exact ⟨py, px, hres, hpyl, hpxl, by simp [hpxl, hpyl]; omega⟩
      · -- last dimension 3: ValueError
        have hres : pos2posembed rsin rcos dim_t scale d_model [p0, p1, r1]
            = Except.error TorchError.valueError := by
          simp only [pos2posembed, bind, Except.bind, hpx, hpy]
          rfl
        refine ⟨by simp, ?_, ?_, ?_, by simp, by simp⟩
        · exact iff_of_true hres ⟨hpar, by simp, by simp, by simp⟩
        · intro _
          exact iff_of_true ⟨TorchError.valueError, hres⟩ (by simp)
        · intro h1
          omega
      · -- last dimension 4
        obtain ⟨pw, hpw, hpwl⟩ := hflE hpar (r1 * scale * scale)
        obtain ⟨ph, hph, hphl⟩ := hflE hpar (r2 * scale * scale)
        have hres : pos2posembed rsin rcos dim_t scale d_model
            [p0, p1, r1, r2] = Except.ok (py ++ px ++ pw ++ ph) := by
          simp only [pos2posembed, bind, Except.bind, hpx, hpy, hpw, hph]
          rfl
        refine ⟨by simp, ?_, ?_, ?_, by simp, fun hd4 _ => ?_⟩
        · exact iff_of_false (by simp [hres]) (by simp)
        · intro _
          exact iff_of_false (by simp [hres]) (by simp)
        · intro h1
          omega
        · refine ⟨py, px, pw, ph, hres, hpyl, hpxl, hpwl, hphl, ?_⟩
          simp [hpxl, hpyl, hpwl, hphl]
          omega
      · -- last dimension at least 5: ValueError
        have hres : pos2posembed rsin rcos dim_t scale d_model
            (p0 :: p1 :: r1 :: r2 :: r3 :: rest3)
            = Except.error TorchError.valueError := by
          simp only [pos2posembed, bind, Except.bind, hpx, hpy]
          simp
        refine ⟨by simp, ?_, ?_, ?_, by simp, by simp⟩
        · exact iff_of_true hres ⟨hpar, by simp, by simp, by simp⟩
        · intro _
          exact iff_of_true ⟨TorchError.valueError, hres⟩ (by simp)
        · intro h1
          omega
    · have h1 : (d_model / 2) % 2 = 1 := by omega
      have herr : pos2posembed rsin rcos dim_t scale d_model
          (p0 :: p1 :: rest) = Except.error TorchError.runtimeError := by
        simp only [pos2posembed, bind, Except.bind, hflO h1]
      refine ⟨by simp, ?_, ?_, fun _ _ => herr, ?_, ?_⟩
      · exact iff_of_false (by simp [herr]) (fun h => hpar h.1)
      · intro h0
        exact absurd h0 hpar
      · intro hd4
        exact absurd (by omega : (d_model / 2) % 2 = 0) hpar
      · intro hd4
        exact absurd (by omega : (d_model / 2) % 2 = 0) hpar

instance exceptDecEq {e a : Type} [DecidableEq e] [DecidableEq a] :
    DecidableEq (Except e a) := fun x y =>
  match x, y with
  | Except.error u, Except.error v =>
      if h : u = v then Decidable.isTrue (by rw [h])
      else Decidable.isFalse (fun hh => h (Except.error.inj hh))
  | Except.ok u, Except.ok v =>
      if h : u = v then Decidable.isTrue (by rw [h])
      else Decidable.isFalse (fun hh => h (Except.ok.inj hh))
  | Except.error _, Except.ok _ =>
      Decidable.isFalse (fun hh => Except.noConfusion hh)
  | Except.ok _, Except.error _ =>
      Decidable.isFalse (fun hh => Except.noConfusion hh)

/-- Counterexample for C9 as stated.  At a last dimension of 1
(neither 2 nor 4) the source raises an IndexError at `pos[..., 1]`,
not the ValueError the claim asserts.  At `d_model = 6`
(`num_pos_feats = 3`, odd), `torch.stack` raises a RuntimeError: at
last dimension 3 this replaces the asserted ValueError, and at last
dimension 2 no embedding is returned at all.  At `d_model = 5`
(`num_pos_feats = 2`), a last dimension of 2 yields an embedding of
`2 * (d_model / 2) = 4` entries, not `d_model = 5`. -/
theorem pos2posembed_counterexample :
    ([(5 : ℚ)].length ≠ 2 ∧ [(5 : ℚ)].length ≠ 4
     ∧ pos2posembed (fun q => q) (fun q => q) (fun _ => 1) 1 4 [(5 : ℚ)]
         = Except.error TorchError.indexError
     ∧ pos2posembed (fun q => q) (fun q => q) (fun _ => 1) 1 4 [(5 : ℚ)]
         ≠ Except.error TorchError.valueError)
    ∧ ([(1 : ℚ), 2, 3].length ≠ 2 ∧ [(1 : ℚ), 2, 3].length ≠ 4
       ∧ pos2posembed (fun q => q) (fun q => q) (fun _ => 1) 1 6
           [(1 : ℚ), 2, 3] = Except.error TorchError.runtimeError
       ∧ pos2posembed (fun q => q) (fun q => q) (fun _ => 1) 1 6
           [(1 : ℚ), 2, 3] ≠ Except.error TorchError.valueError)
    ∧ pos2posembed (fun q => q) (fun q => q) (fun _ => 1) 1 6 [(1 : ℚ), 2]
        = Except.error TorchError.runtimeError
    ∧ (Except.map List.length
        (pos2posembed (fun q => q) (fun q => q) (fun _ => 1) 1 5 [(1 : ℚ), 2])
          = Except.ok 4
       ∧ (4 : Nat) ≠ 5) := by
  refine ⟨⟨by simp, by simp, rfl,
      fun h => TorchError.noConfusion (Except.error.inj h)⟩,
    ⟨by simp, by simp, rfl,
      fun h => TorchError.noConfusion (Except.error.inj h)⟩,
    rfl, by decide, by simp⟩

/-- Witness for C9's amended theorem at `d_model = 4`, `pos = [1, 2]`:
the divisibility and length hypotheses of the size clause are
discharged at the concrete input. -/
theorem pos2posembed_spec_witness :
    ((4 : Nat) % 4 = 0 ∧ [(1 : ℚ), 2].length = 2)
    ∧ (∃ py px, pos2posembed (fun q => q) (fun q => q) (fun _ => 1) 1 4
          [(1 : ℚ), 2] = Except.ok (py ++ px)
        ∧ py.length = 4 / 2 ∧ px.length = 4 / 2
        ∧ (py ++ px).length = 4) :=
  ⟨⟨rfl, rfl⟩,
   (pos2posembed_spec (fun q => q) (fun q => q) (fun _ => 1) 1 4
      [(1 : ℚ), 2]).2.2.2.2.1 rfl rfl⟩

/-!
`HungarianMatcher.__call__` (matcher.py lines 162-213).  The cost
matrix built on lines 171-192 (focal-style classification cost plus
`3.0` times the `-log(IoU)` regression cost, padded with `1e9` outside
the valid mask) is consumed only by SciPy's `linear_sum_assignment`,
an external library; the assignment it returns is therefore a
parameter `pred_indices` here.  When `num_gts <= num_anchors` SciPy
assigns every row and returns the row indices sorted, so
`gt_indices = [0, ..., N-1]` and `pred_indices` is a duplicate-free
list of column indices below `num_anchors`; these facts are the
hypotheses of the theorem below.
-/

/-- Fancy-index assignment `t[idxs] = vals` realised as a left fold of
single-position `set` updates. -/
def scatter {α : Type} (t : List α) (idxs : List Nat) (vals : List α) :
    List α :=
  (idxs.zip vals).foldl (fun acc p => acc.set p.1 p.2) t

lemma scatter_aux_length {α : Type} (l : List (Nat × α)) (t : List α) :
    (l.foldl (fun acc p => acc.set p.1 p.2) t).length = t.length := by
  induction l generalizing t with
  | nil => rfl
  | cons p r ih => simp [List.foldl_cons, ih]

lemma scatter_length {α : Type} (t : List α) (idxs : List Nat)
    (vals : List α) : (scatter t idxs vals).length = t.length :=
  scatter_aux_length _ t

lemma scatter_getD_not_mem {α : Type} (idxs : List Nat) (t vals : List α)
    (d : α) (a : Nat) (ha : a ∉ idxs) :
    (scatter t idxs vals).getD a d = t.getD a d := by
  induction idxs generalizing vals t with
  | nil => rfl
  | cons i is ih =>
      rcases vals with _ | ⟨v, vs⟩
      · rfl
      · have hne : a ≠ i := fun h => ha (h ▸ List.mem_cons_self i is)
        have hnis : a ∉ is := fun h => ha (List.mem_cons_of_mem i h)
        show (scatter (t.set i v) is vs).getD a d = t.getD a d
        rw [ih (t.set i v) vs hnis,
            List.getD_eq_getElem?_getD, List.getElem?_set_ne (Ne.symm hne),
            ← List.getD_eq_getElem?_getD]

lemma scatter_getD_mem {α : Type} (idxs : List Nat) (t vals : List α)
    (d : α) (k : Nat) (hnd : idxs.Nodup) (hlen : vals.length = idxs.length)
    (hk : k < idxs.length) (hb : idxs.getD k 0 < t.length) :
    (scatter t idxs vals).getD (idxs.getD k 0) d = vals.getD k d := by
  induction idxs generalizing vals t k with
  | nil => exact absurd hk (by simp)
  | cons i is ih =>
      rcases vals with _ | ⟨v, vs⟩
      · exact absurd hlen (by simp)
      · rcases k with _ | k
        · have hnis : i ∉ is := (List.nodup_cons.mp hnd).1
          show (scatter (t.set i v) is vs).getD ((i :: is).getD 0 0) d
              = (v :: vs).getD 0 d
          rw [show (i :: is).getD 0 0 = i from rfl,
              scatter_getD_not_mem is (t.set i v) vs d i hnis,
              List.getD_eq_getElem?_getD,
              List.getElem?_set_self (by simpa using hb)]
          rfl
        · show (scatter (t.set i v) is vs).getD ((i :: is).getD (k + 1) 0) d
              = (v :: vs).getD (k + 1) d
          rw [show (i :: is).getD (k + 1) 0 = is.getD k 0 from rfl]
          have := ih (t.set i v) vs k (List.nodup_cons.mp hnd).2
            (by simpa using hlen) (by simpa using hk)
            (by rw [List.length_set]; simpa using hb)
          rw [this]
          rfl

lemma getD_replicate {α : Type} (n a : Nat) (x d : α) (h : a < n) :
    (List.replicate n x).getD a d = x := by
  rw [List.getD_eq_getElem?_getD, List.getElem?_replicate, if_pos h]
  rfl

/-- Method `HungarianMatcher.__call__` post-assignment target construction
(matcher.py lines 196-213): `cls_target`, `box_target` and
`iou_target` start as background (`num_classes`, zero box, zero IoU)
over the anchor dimension and are scatter-assigned at `pred_indices`
with `gt_labels`, `gt_bboxes`, and
`pair_wise_ious[gt_indices, pred_indices]` where
`pair_wise_ious = box_iou(gt_bboxes, pred_box)[0]` and
`gt_indices = [0, ..., N-1]`. -/
def hungarian_call (num_classes : Nat) (pred_cls : List (List ℚ))
    (pred_box : List Box) (gt_labels : List Nat) (gt_bboxes : List Box)
    (pred_indices : List Nat) : List Nat × List Box × List ℚ :=
  let pair_wise_ious := (box_iou gt_bboxes pred_box).1
  let cls_target := scatter (List.replicate pred_cls.length num_classes)
    pred_indices gt_labels
  let box_target := scatter (List.replicate pred_box.length (⟨0, 0, 0, 0⟩ : Box))
    pred_indices gt_bboxes
  let iou_target := scatter (List.replicate pred_box.length (0 : ℚ))
    pred_indices
    ((List.range gt_labels.length).map
      (fun g => entry pair_wise_ious g (pred_indices.getD g 0)))
  (cls_target, box_target, iou_target)

/-- C3: with `N = num_gts ≤ num_anchors = M`, a duplicate-free
assignment `pred_indices` of the `N` ground truths to anchors below
`M`, the Hungarian targets mark exactly `N` distinct anchors as
foreground: the anchor assigned to ground truth `g` receives
`gt_labels[g]`, `gt_bboxes[g]`, and
`IoU(gt_bboxes[g], pred_box[anchor])`, and every unassigned anchor
keeps `num_classes`, the zero box, and IoU `0`. -/
theorem hungarian_call_spec (num_classes M N : Nat)
    (pred_cls : List (List ℚ)) (pred_box : List Box)
    (gt_labels : List Nat) (gt_bboxes : List Box) (pred_indices : List Nat)
    (hM1 : pred_cls.length = M) (hM2 : pred_box.length = M)
    (hN1 : gt_labels.length = N) (hN2 : gt_bboxes.length = N)
    (hNM : N ≤ M) (hPlen : pred_indices.length = N)
    (hPnodup : pred_indices.Nodup) (hPlt : ∀ a ∈ pred_indices, a < M) :
    ((Finset.range M).filter (fun a => a ∈ pred_indices)).card = N
    ∧ (∀ g, g < N →
        (hungarian_call num_classes pred_cls pred_box gt_labels gt_bboxes
            pred_indices).1.getD (pred_indices.getD g 0) 0
          = gt_labels.getD g 0
        ∧ (hungarian_call num_classes pred_cls pred_box gt_labels gt_bboxes
            pred_indices).2.1.getD (pred_indices.getD g 0) default
          = gt_bboxes.getD g default
        ∧ (hungarian_call num_classes pred_cls pred_box gt_labels gt_bboxes
            pred_indices).2.2.getD (pred_indices.getD g 0) 0
          = iouPair (gt_bboxes.getD g default)
              (pred_box.getD (pred_indices.getD g 0) default))
    ∧ (∀ a, a < M → a ∉ pred_indices →
        (hungarian_call num_classes pred_cls pred_box gt_labels gt_bboxes
            pred_indices).1.getD a 0 = num_classes
        ∧ (hungarian_call num_classes pred_cls pred_box gt_labels gt_bboxes
            pred_indices).2.1.getD a default = (⟨0, 0, 0, 0⟩ : Box)
        ∧ (hungarian_call num_classes pred_cls pred_box gt_labels gt_bboxes
            pred_indices).2.2.getD a 0 = 0) := by
  have hmemlt : ∀ g, g < N → pred_indices.getD g 0 < M := by
    intro g hg
    apply hPlt
    rw [List.getD_eq_getElem?_getD, List.getElem?_eq_getElem (by omega)]
    exact List.getElem_mem _
  refine ⟨?_, ?_, ?_⟩
  · have hset : (Finset.range M).filter (fun a => a ∈ pred_indices)
        = pred_indices.toFinset := by
      ext a
      simp only [Finset.mem_filter, Finset.mem_range, List.mem_toFinset]
      exact ⟨fun h => h.2, fun h => ⟨hPlt a h, h⟩⟩
    rw [hset, List.toFinset_card_of_nodup hPnodup, hPlen]
  · intro g hg
    refine ⟨?_, ?_, ?_⟩
    · show (scatter (List.replicate pred_cls.length num_classes)
        pred_indices gt_labels).getD (pred_indices.getD g 0) 0
        = gt_labels.getD g 0
      rw [scatter_getD_mem pred_indices _ gt_labels 0 g hPnodup
        (by omega) (by omega)
        (by rw [List.length_replicate, hM1]; exact hmemlt g hg)]
    · show (scatter (List.replicate pred_box.length (⟨0, 0, 0, 0⟩ : Box))
        pred_indices gt_bboxes).getD (pred_indices.getD g 0) default
        = gt_bboxes.getD g default
      rw [scatter_getD_mem pred_indices _ gt_bboxes default g hPnodup
        (by omega) (by omega)
        (by rw [List.length_replicate, hM2]; exact hmemlt g hg)]
    · show (scatter (List.replicate pred_box.length (0 : ℚ))
        pred_indices
        ((List.range gt_labels.length).map
          (fun k => entry (box_iou gt_bboxes pred_box).1 k
            (pred_indices.getD k 0)))).getD (pred_indices.getD g 0) 0
        = iouPair (gt_bboxes.getD g default)
            (pred_box.getD (pred_indices.getD g 0) default)
      rw [scatter_getD_mem pred_indices _ _ 0 g hPnodup
        (by rw [List.length_map, List.length_range]; omega) (by omega)
        (by rw [List.length_replicate, hM2]; exact hmemlt g hg)]
      rw [List.getD_eq_getElem?_getD, List.getElem?_map,
          List.getElem?_range (by omega)]
      show entry (box_iou gt_bboxes pred_box).1 g (pred_indices.getD g 0)
        = iouPair (gt_bboxes.getD g default)
            (pred_box.getD (pred_indices.getD g 0) default)
      exact entry_matrix iouPair gt_bboxes pred_box (by omega)
        (by rw [hM2]; exact hmemlt g hg)
  · intro a _ hnot
    refine ⟨?_, ?_, ?_⟩
    · show (scatter (List.replicate pred_cls.length num_classes)
        pred_indices gt_labels).getD a 0 = num_classes
      rw [scatter_getD_not_mem pred_indices _ gt_labels 0 a hnot,
          getD_replicate _ _ _ _ (by omega)]
    · show (scatter (List.replicate pred_box.length (⟨0, 0, 0, 0⟩ : Box))
        pred_indices gt_bboxes).getD a default = (⟨0, 0, 0, 0⟩ : Box)
      rw [scatter_getD_not_mem pred_indices _ gt_bboxes default a hnot,
          getD_replicate _ _ _ _ (by omega)]
    · show (scatter (List.replicate pred_box.length (0 : ℚ))
        pred_indices _).getD a 0 = 0
      rw [scatter_getD_not_mem pred_indices _ _ 0 a hnot,
          getD_replicate _ _ _ _ (by omega)]

/-- Witness for C3: one ground truth, two anchors, assignment `[1]`. -/
theorem hungarian_call_spec_witness :
    ([([0, 0] : List ℚ), [0, 0]].length = 2
     ∧ [(⟨0, 0, 2, 2⟩ : Box), ⟨1, 1, 3, 3⟩].length = 2
     ∧ [(0 : Nat)].length = 1 ∧ [(⟨0, 0, 2, 2⟩ : Box)].length = 1
     ∧ (1 : Nat) ≤ 2 ∧ [(1 : Nat)].length = 1 ∧ [(1 : Nat)].Nodup
     ∧ (∀ a ∈ [(1 : Nat)], a < 2))
    ∧ ((Finset.range 2).filter (fun a => a ∈ [(1 : Nat)])).card = 1 :=
  ⟨⟨by decide, by decide, by decide, by decide, by decide, by decide,
    by decide, by decide⟩,
   (hungarian_call_spec 80 2 1 [[0, 0], [0, 0]]
      [⟨0, 0, 2, 2⟩, ⟨1, 1, 3, 3⟩] [0] [⟨0, 0, 2, 2⟩] [1]
      rfl rfl rfl rfl (by decide) rfl (by decide) (by decide)).1⟩

/-!
`SimOTAMatcher.dynamic_k_matching` (matcher.py lines 115-155).  The
cost matrix and pairwise-IoU matrix are functions of explicit row
(ground truth) and column (anchor) indices, with explicit dimensions
`N` and `M`.  `torch.sort`/`torch.topk` are realised with a
structurally recursive insertion sort (the claims proved here do not
depend on the tie-breaking order of equal keys).
-/

/-- Insert an element into a list ordered by `le`. -/
def insertSorted {α : Type} (le : α → α → Bool) (x : α) : List α → List α
  | [] => [x]
  | y :: ys => if le x y then x :: y :: ys else y :: insertSorted le x ys

/-- Insertion sort by `le`. -/
def insertionSort {α : Type} (le : α → α → Bool) : List α → List α
  | [] => []
  | x :: xs => insertSorted le x (insertionSort le xs)

lemma insertSorted_perm {α : Type} (le : α → α → Bool) (x : α) (l : List α) :
    (insertSorted le x l).Perm (x :: l) := by
  induction l with
  | nil => exact List.Perm.refl _
  | cons y ys ih =>
      by_cases h : le x y = true
      · simp [insertSorted, h]
      · simp only [insertSorted, h, if_false, Bool.false_eq_true]
        exact ((ih.cons y).trans (List.Perm.swap x y ys))

lemma insertionSort_perm {α : Type} (le : α → α → Bool) (l : List α) :
    (insertionSort le l).Perm l := by
  induction l with
  | nil => exact List.Perm.refl _
  | cons x xs ih =>
      exact (insertSorted_perm le x (insertionSort le xs)).trans (ih.cons x)

/-- Row `g` of the pairwise IoU matrix as a list over the `M` anchor
columns. -/
def iouRowList (iouM : Nat → Nat → ℚ) (M g : Nat) : List ℚ :=
  (List.range M).map (iouM g)

/-- Expression `topk_ious.sum(1)` for row `g` (matcher.py lines 129-130):
the sum of the `min(topk_candidate, M)` largest IoUs of the row. -/
def topkIouSum (iouM : Nat → Nat → ℚ) (M topk g : Nat) : ℚ :=
  ((insertionSort (fun a b => decide (b ≤ a)) (iouRowList iouM M g)).take
    (min topk M)).sum

/-- Expression `torch.clamp(x.int(), min=1)` (matcher.py line 132): the rational
sum is truncated toward zero and clamped below by 1. -/
def dynamicK (q : ℚ) : Nat :=
  (max 1 (q.num.tdiv q.den)).toNat

/-- Row `g` of `sorted_indices` (matcher.py line 135): the column
indices sorted by ascending cost. -/
def sorted_indices (cost : Nat → Nat → ℚ) (M g : Nat) : List Nat :=
  insertionSort (fun i j => decide (cost g i ≤ cost g j)) (List.range M)

/-- The columns set to 1 in row `g` of the matching matrix by the loop
of matcher.py lines 136-138: the first `dynamic_ks[g]` entries of the
sorted index row. -/
def initCols (cost iouM : Nat → Nat → ℚ) (M topk g : Nat) : List Nat :=
  (sorted_indices cost M g).take (dynamicK (topkIouSum iouM M topk g))

/-- Entry `(g, j)` of the matching matrix before conflict resolution. -/
def initMatch (cost iouM : Nat → Nat → ℚ) (M topk : Nat) (g j : Nat) : Bool :=
  decide (j ∈ initCols cost iouM M topk g)

/-- Expression `matching_matrix.sum(0)` at column `j` before conflict
resolution. -/
def initColCount (cost iouM : Nat → Nat → ℚ) (N M topk j : Nat) : Nat :=
  ((Finset.range N).filter
    (fun g => initMatch cost iouM M topk g j = true)).card

/-- Expression `torch.min(..., dim=0)` index: the first minimiser of `f` over
`[0, n)` (`0` when `n = 0`). -/
def argminCol (f : Nat → ℚ) : Nat → Nat
  | 0 => 0
  | n + 1 => if f n < f (argminCol f n) then n else argminCol f n

/-- Entry `(g, j)` of the matching matrix after the conflict-resolution
step of matcher.py lines 142-147: a column claimed by more than one
ground truth is zeroed and reassigned to the row of minimum cost. -/
def finalMatch (cost iouM : Nat → Nat → ℚ) (N M topk : Nat)
    (g j : Nat) : Bool :=
  if 1 < initColCount cost iouM N M topk j then
    g == argminCol (fun r => cost r j) N
  else initMatch cost iouM M topk g j

/-- Expression `matching_matrix.sum(0)` at column `j` after conflict
resolution. -/
def finalColCount (cost iouM : Nat → Nat → ℚ) (N M topk j : Nat) : Nat :=
  ((Finset.range N).filter
    (fun g => finalMatch cost iouM N M topk g j = true)).card

/-- Tensor `fg_mask_inboxes` (matcher.py line 150) at column `j`. -/
def fg_mask_inboxes (cost iouM : Nat → Nat → ℚ) (N M topk j : Nat) : Bool :=
  decide (0 < finalColCount cost iouM N M topk j)

/-- Tensor `matched_gt_inds` (matcher.py line 153) at a foreground column
`j`: `argmax` over the rows of the 0/1 column, i.e. the first row with
a 1. -/
def matched_gt_inds (cost iouM : Nat → Nat → ℚ) (N M topk j : Nat) : Nat :=
  ((List.range N).find? (fun g => finalMatch cost iouM N M topk g j)).getD 0

/-- Expression `(matching_matrix * pairwise_ious).sum(0)` (matcher.py line 151)
at column `j`. -/
def matched_pred_ious (cost iouM : Nat → Nat → ℚ) (N M topk j : Nat) : ℚ :=
  ((List.range N).map
    (fun g => (if finalMatch cost iouM N M topk g j then 1 else 0)
      * iouM g j)).sum

lemma argminCol_le (f : Nat → ℚ) : ∀ n, argminCol f n ≤ n
  | 0 => Nat.le_refl 0
  | n + 1 => by
      simp only [argminCol]
      split
      · omega
      · have := argminCol_le f n
        omega

lemma argminCol_lt (f : Nat → ℚ) (n : Nat) (hn : 1 ≤ n) :
    argminCol f n < n := by
  induction n with
  | zero => omega
  | succ m ih =>
      simp only [argminCol]
      split
      · omega
      · rcases Nat.eq_zero_or_pos m with h | h
        · subst h
          simp [argminCol]
        · exact Nat.lt_succ_of_lt (ih h)

lemma argminCol_min (f : Nat → ℚ) (n : Nat) :
    ∀ g, g < n → f (argminCol f n) ≤ f g := by
  induction n with
  | zero => omega
  | succ m ih =>
      intro g hg
      simp only [argminCol]
      split
      · rename_i hlt
        rcases Nat.lt_succ_iff_lt_or_eq.mp hg with h | h
        · exact le_of_lt (lt_of_lt_of_le hlt (ih g h))
        · subst h; exact le_refl _
      · rename_i hge
        rcases Nat.lt_succ_iff_lt_or_eq.mp hg with h | h
        · exact ih g h
        · subst h; exact le_of_not_lt hge

/-- C4 (amended): after `dynamic_k_matching`, every column holds at
most one assignment; a column that had several is reassigned to a
minimum-cost row; `fg_mask_inboxes` holds exactly on columns with one
assignment; provided at least one anchor column exists (`1 ≤ M`),
every ground truth initially selects at least one candidate because
its dynamic k is clamped to a minimum of 1; and `matched_gt_inds`
returns, at each foreground column, its unique assigned row. -/
theorem dynamic_k_matching_spec (cost iouM : Nat → Nat → ℚ)
    (N M topk : Nat) (hN : 1 ≤ N) (hM : 1 ≤ M) :
    (∀ j g g', g < N → g' < N →
        finalMatch cost iouM N M topk g j = true →
        finalMatch cost iouM N M topk g' j = true → g = g')
    ∧ (∀ j, 1 < initColCount cost iouM N M topk j →
        finalMatch cost iouM N M topk (argminCol (fun r => cost r j) N) j
            = true
        ∧ argminCol (fun r => cost r j) N < N
        ∧ ∀ g, g < N → cost (argminCol (fun r => cost r j) N) j ≤ cost g j)
    ∧ (∀ g, 1 ≤ dynamicK (topkIouSum iouM M topk g)
        ∧ ∃ j, j < M ∧ initMatch cost iouM M topk g j = true)
    ∧ (∀ j, fg_mask_inboxes cost iouM N M topk j = true ↔
        finalColCount cost iouM N M topk j = 1)
    ∧ (∀ j, fg_mask_inboxes cost iouM N M topk j = true →
        matched_gt_inds cost iouM N M topk j < N
        ∧ finalMatch cost iouM N M topk
            (matched_gt_inds cost iouM N M topk j) j = true) := by
  have huniq : ∀ j g g', g < N → g' < N →
      finalMatch cost iouM N M topk g j = true →
      finalMatch cost iouM N M topk g' j = true → g = g' := by
    intro j g g' hg hg' h1 h2
    unfold finalMatch at h1 h2
    by_cases hc : 1 < initColCount cost iouM N M topk j
    · rw [if_pos hc] at h1 h2
      rw [beq_iff_eq] at h1 h2
      rw [h1, h2]
    · rw [if_neg hc] at h1 h2
      by_contra hne
      exact hc (Finset.one_lt_card.mpr
        ⟨g, by simp [Finset.mem_filter, Finset.mem_range, hg, h1],
         g', by simp [Finset.mem_filter, Finset.mem_range, hg', h2], hne⟩)
  refine ⟨huniq, ?_, ?_, ?_, ?_⟩
  · intro j hc
    refine ⟨?_, argminCol_lt _ _ hN, argminCol_min _ _⟩
    unfold finalMatch
    rw [if_pos hc]
    exact beq_self_eq_true _
  · intro g
    have hk : 1 ≤ dynamicK (topkIouSum iouM M topk g) := by
      unfold dynamicK
      omega
    refine ⟨hk, ?_⟩
    have hsl : (sorted_indices cost M g).length = M := by
      unfold sorted_indices
      rw [(insertionSort_perm _ _).length_eq, List.length_range]
    have hlen : 0 < (initCols cost iouM M topk g).length := by
      unfold initCols
      rw [List.length_take, hsl]
      omega
    obtain ⟨j, hj⟩ := List.exists_mem_of_length_pos hlen
    refine ⟨j, ?_, by simp [initMatch, hj]⟩
    have hjs : j ∈ sorted_indices cost M g := List.mem_of_mem_take hj
    have : j ∈ List.range M := by
      unfold sorted_indices at hjs
      exact (insertionSort_perm _ _).mem_iff.mp hjs
    simpa using this
  · intro j
    have hle : finalColCount cost iouM N M topk j ≤ 1 := by
      apply Finset.card_le_one.mpr
      intro a ha b hb
      simp only [Finset.mem_filter, Finset.mem_range] at ha hb
      exact huniq j a b ha.1 hb.1 ha.2 hb.2
    unfold fg_mask_inboxes
    constructor
    · intro h
      have := of_decide_eq_true h
      omega
    · intro h
      exact decide_eq_true (by omega)
  · intro j hfg
    have hpos : 0 < finalColCount cost iouM N M topk j :=
      of_decide_eq_true hfg
    obtain ⟨g, hg⟩ := Finset.card_pos.mp hpos
    simp only [Finset.mem_filter, Finset.mem_range] at hg
    have hsome : (List.range N).find?
        (fun r => finalMatch cost iouM N M topk r j) |>.isSome := by
      rw [List.find?_isSome]
      exact ⟨g, by simpa using hg.1, hg.2⟩
    obtain ⟨a, ha⟩ := Option.isSome_iff_exists.mp hsome
    have hmem := List.mem_of_find?_eq_some ha
    have hpa := List.find?_some ha
    unfold matched_gt_inds
    rw [ha]
    exact ⟨by simpa using hmem, hpa⟩

/-- Witness for C4's amended theorem on a concrete `2 × 2` instance. -/
theorem dynamic_k_matching_spec_witness :
    ((1 : Nat) ≤ 2 ∧ (1 : Nat) ≤ 2)
    ∧ (∀ g, 1 ≤ dynamicK (topkIouSum
          (fun a b => ((a * 2 + b : Nat) : ℚ) / 10) 2 10 g)
        ∧ ∃ j, j < 2 ∧ initMatch (fun a b => ((a + b : Nat) : ℚ))
            (fun a b => ((a * 2 + b : Nat) : ℚ) / 10) 2 10 g j = true) :=
  ⟨⟨by decide, by decide⟩,
   (dynamic_k_matching_spec (fun a b => ((a + b : Nat) : ℚ))
      (fun a b => ((a * 2 + b : Nat) : ℚ) / 10) 2 2 10
      (by decide) (by decide)).2.2.1⟩

/-- Counterexample for C4 as stated: with `num_gt = 1` but zero anchor
columns (`M = 0`), ground truth 0 selects no candidate at all — the
sorted index row is empty, so the clamped dynamic k selects nothing. -/
theorem dynamic_k_matching_counterexample :
    initCols (fun _ _ => (0 : ℚ)) (fun _ _ => (0 : ℚ)) 0 10 0 = []
    ∧ initMatch (fun _ _ => (0 : ℚ)) (fun _ _ => (0 : ℚ)) 0 10 0 0 = false
    ∧ 1 ≤ dynamicK (topkIouSum (fun _ _ => (0 : ℚ)) 0 10 0) := by
  refine ⟨rfl, by decide, by decide⟩

/-- The largest coordinate appearing in a box. -/
def boxMax (b : Box) : ℚ :=
  max (max b.x1 b.y1) (max b.x2 b.y2)

/-- Expression `gt_bboxes.max()`: the largest coordinate over all boxes (`0` on
an empty tensor, which the source never reaches because the
`num_gt == 0` test short-circuits first). -/
def maxCoord : List Box → ℚ
  | [] => 0
  | b :: rest => (rest.map boxMax).foldl max (boxMax b)

/-- Method `SimOTAMatcher.__call__` (matcher.py lines 31-93).  Here `bce` is the
scalar `F.binary_cross_entropy_with_logits`, `rsig` the scalar
`sigmoid`, and `rlog` the scalar `log`, all abstract.  When there is
no ground truth, or the largest ground-truth coordinate is 0, the
guard of lines 37-42 returns background targets immediately;
otherwise the focal-style cost matrix of lines 44-68 is formed and
`dynamic_k_matching` assigns targets, which lines 83-91 scatter back
over the anchors (the masked assignments of lines 84, 88, 91 align
the compressed per-foreground-column values with the columns where
`fg_mask_inboxes` holds, which is the pointwise form used here). -/
def simota_call (bce : ℚ → ℚ → ℚ) (rsig rlog : ℚ → ℚ)
    (num_classes topk : Nat) (anchors : List (ℚ × ℚ))
    (pred_cls : List (List ℚ)) (pred_box : List Box)
    (gt_labels : List Nat) (gt_bboxes : List Box) :
    List Nat × List Box × List ℚ :=
  let num_gt := gt_labels.length
  if num_gt = 0 ∨ maxCoord gt_bboxes = 0 then
    (List.replicate pred_cls.length num_classes,
     List.replicate pred_box.length (⟨0, 0, 0, 0⟩ : Box),
     List.replicate pred_cls.length (0 : ℚ))
  else
    let valid : Nat → Prop := fun j =>
      0 < (List.range num_gt).countP
        (fun g => isInsideBox (gt_bboxes.getD g default) (anchors.getD j default))
    let iouM : Nat → Nat → ℚ := fun g j =>
      iouPair (gt_bboxes.getD g default) (pred_box.getD j default)
    let score : Nat → Nat → ℚ := fun g j =>
      (pred_cls.getD j []).getD (gt_labels.getD g 0) 0
    let reg_loss : Nat → Nat → ℚ := fun g j =>
      -(rlog (iouM g j + 1 / 100000000))
    let scale_factor : Nat → Nat → ℚ := fun g j =>
      |iouM g j - rsig (score g j)| ^ 2
    let cls_loss : Nat → Nat → ℚ := fun g j =>
      bce (score g j) (iouM g j) * scale_factor g j
    let cost : Nat → Nat → ℚ := fun g j =>
      if valid j then cls_loss g j + 3 * reg_loss g j else 1000000000
    let Mc := pred_box.length
    let cls_targets := (List.range pred_cls.length).map (fun j =>
      if fg_mask_inboxes cost iouM num_gt Mc topk j then
        gt_labels.getD (matched_gt_inds cost iouM num_gt Mc topk j) 0
      else num_classes)
    let box_targets := (List.range pred_box.length).map (fun j =>
      if fg_mask_inboxes cost iouM num_gt Mc topk j then
        gt_bboxes.getD (matched_gt_inds cost iouM num_gt Mc topk j) default
      else (⟨0, 0, 0, 0⟩ : Box))
    let iou_targets := (List.range pred_cls.length).map (fun j =>
      if fg_mask_inboxes cost iouM num_gt Mc topk j then
        matched_pred_ious cost iouM num_gt Mc topk j
      else 0)
    (cls_targets, box_targets, iou_targets)

/-- C5: when there is no ground truth or the largest ground-truth
coordinate is 0, `SimOTAMatcher.__call__` immediately returns
background class targets (`num_classes`) over the `pred_cls` anchors,
zero boxes over the `pred_box` shape, and zero IoU targets; the result
is independent of the cost/IoU/matching pipeline (replacing the BCE,
sigmoid, and log functions leaves it unchanged). -/
theorem simota_call_guard (bce bce' : ℚ → ℚ → ℚ)
    (rsig rsig' rlog rlog' : ℚ → ℚ) (num_classes topk : Nat)
    (anchors : List (ℚ × ℚ)) (pred_cls : List (List ℚ))
    (pred_box : List Box) (gt_labels : List Nat) (gt_bboxes : List Box)
    (h : gt_labels.length = 0 ∨ maxCoord gt_bboxes = 0) :
    simota_call bce rsig rlog num_classes topk anchors pred_cls pred_box
        gt_labels gt_bboxes
      = (List.replicate pred_cls.length num_classes,
         List.replicate pred_box.length (⟨0, 0, 0, 0⟩ : Box),
         List.replicate pred_cls.length (0 : ℚ))
    ∧ simota_call bce rsig rlog num_classes topk anchors pred_cls pred_box
        gt_labels gt_bboxes
      = simota_call bce' rsig' rlog' num_classes topk anchors pred_cls
          pred_box gt_labels gt_bboxes := by
  constructor
  · unfold simota_call
    rw [if_pos h]
  · unfold simota_call
    rw [if_pos h, if_pos h]

/-- Witness for C5 with an empty ground-truth list. -/
theorem simota_call_guard_witness :
    (([] : List Nat).length = 0 ∨ maxCoord ([] : List Box) = 0)
    ∧ simota_call (fun _ _ => 0) (fun q => q) (fun q => q) 80 10
        [((0 : ℚ), (0 : ℚ))] [[0]] [⟨0, 0, 1, 1⟩] [] []
      = (List.replicate 1 80, List.replicate 1 (⟨0, 0, 0, 0⟩ : Box),
         List.replicate 1 (0 : ℚ)) :=
  ⟨Or.inl rfl,
   (simota_call_guard (fun _ _ => 0) (fun _ _ => 0) (fun q => q) (fun q => q)
      (fun q => q) (fun q => q) 80 10 [((0 : ℚ), (0 : ℚ))] [[0]]
      [⟨0, 0, 1, 1⟩] [] [] (Or.inl rfl)).1⟩

/-!
`PlainDETRTransformer.forward_pre_upsample` (transformer.py lines
182-288) versus `BackupPlainDETRTransformer.forward_pre_upsample`
(lines 572-681).  The two methods are textually identical except in
the detection head: for the one2many branch, the Plain version slices
`output_class[self.num_queries_one2many:]` and
`output_coord[self.num_queries_one2many:]` (lines 263-264) while the
Backup version slices `[self.num_queries_one2one:]` (lines 656-657).
The shared computation — upsample layer, positional embedding,
encoder stack, query preparation, attention mask, and the decoder loop
with the look-forward-twice reference update — is identical given
identical weights, so it is carried here as shared abstract
parameters: `decoderStep l output ref` is decoder layer `l` together
with its reference-point update, `classEmbed`/`coordEmbed` are the
per-layer heads, and `tgt0`/`ref0` the prepared queries.  Tensors are
lists over the query dimension (the dimension both slicings act on).
-/

/-- The configuration and weights shared by the two transformer
variants. -/
structure DETRForwardParams (T C R : Type) where
  numQ1 : Nat
  numQ2 : Nat
  is_train : Bool
  return_intermediate : Bool
  numLayers : Nat
  tgt0 : List T
  ref0 : R
  decoderStep : Nat → List T → R → List T × R
  classEmbed : Nat → List T → List C
  coordEmbed : Nat → List T → R → List C

/-- The decoder loop (transformer.py lines 228-249): starting from
layer `l`, run `n` layers, pairing the reference point entering each
layer with the output the layer produces (the zip of
`ref_points[:-1]` with `outputs` on line 252). -/
def detrLayers {T R : Type} (step : Nat → List T → R → List T × R) :
    Nat → Nat → List T → R → List (R × List T)
  | 0, _, _, _ => []
  | n + 1, l, out, ref =>
      let s := step l out ref
      (ref, s.1) :: detrLayers step n (l + 1) s.1 s.2

/-- The detection head (transformer.py lines 252-258): per layer
`lid`, the class embedding of the output and the coordinate output
built from the output and the entering reference point. -/
def detrHead {T C R : Type} (classEmbed : Nat → List T → List C)
    (coordEmbed : Nat → List T → R → List C) :
    Nat → List (R × List T) → List (List C × List C)
  | _, [] => []
  | lid, p :: rest =>
      (classEmbed lid p.2, coordEmbed lid p.2 p.1)
        :: detrHead classEmbed coordEmbed (lid + 1) rest

/-- The output dictionary of `forward_pre_upsample` (transformer.py
lines 275-288). -/
structure DETROutputs (C : Type) where
  pred_logits : List C
  pred_boxes : List C
  aux_outputs : Option (List (List C × List C))
  pred_logits_one2many : Option (List C)
  pred_boxes_one2many : Option (List C)
  aux_outputs_one2many : Option (List (List C × List C))
deriving DecidableEq

/-- Lines 260-288 of transformer.py: the one2one outputs take the
first `num_queries_one2one` queries of each layer; the one2many
outputs drop the first `dropIdx` queries (`dropIdx` is where the two
variants differ); the last layer fills `pred_logits`/`pred_boxes` and
the earlier layers fill the aux outputs when `return_intermediate`. -/
def assembleOutputs {C : Type} (numQ1 dropIdx : Nat)
    (use_one2many retInter : Bool)
    (perLayer : List (List C × List C)) : DETROutputs C :=
  let one2one := perLayer.map (fun p => (p.1.take numQ1, p.2.take numQ1))
  let one2many := perLayer.map (fun p => (p.1.drop dropIdx, p.2.drop dropIdx))
  { pred_logits := (one2one.getLastD ([], [])).1
    pred_boxes := (one2one.getLastD ([], [])).2
    aux_outputs := if retInter then some one2one.dropLast else none
    pred_logits_one2many :=
      if use_one2many then some (one2many.getLastD ([], [])).1 else none
    pred_boxes_one2many :=
      if use_one2many then some (one2many.getLastD ([], [])).2 else none
    aux_outputs_one2many :=
      if use_one2many && retInter then some one2many.dropLast else none }

/-- Method `PlainDETRTransformer.forward_pre_upsample` (transformer.py lines
182-288): the one2many outputs are sliced from index
`num_queries_one2many` (lines 263-264). -/
def plainDETR_forward_pre_upsample {T C R : Type}
    (p : DETRForwardParams T C R) : DETROutputs C :=
  let use_one2many := decide (0 < p.numQ2) && p.is_train
  let pairs := detrLayers p.decoderStep p.numLayers 0 p.tgt0 p.ref0
  let perLayer := detrHead p.classEmbed p.coordEmbed 0 pairs
  assembleOutputs p.numQ1 p.numQ2 use_one2many p.return_intermediate perLayer

/-- Method `BackupPlainDETRTransformer.forward_pre_upsample` (transformer.py
lines 572-681): identical except that the one2many outputs are sliced
from index `num_queries_one2one` (lines 656-657). -/
def backupDETR_forward_pre_upsample {T C R : Type}
    (p : DETRForwardParams T C R) : DETROutputs C :=
  let use_one2many := decide (0 < p.numQ2) && p.is_train
  let pairs := detrLayers p.decoderStep p.numLayers 0 p.tgt0 p.ref0
  let perLayer := detrHead p.classEmbed p.coordEmbed 0 pairs
  assembleOutputs p.numQ1 p.numQ1 use_one2many p.return_intermediate perLayer

/-- A concrete training configuration exhibiting the divergence:
one one2one query, two one2many queries, one decoder layer, identity
heads, and a step that increments every query entry. -/
def bugParams : DETRForwardParams Nat Nat Nat :=
  { numQ1 := 1
    numQ2 := 2
    is_train := true
    return_intermediate := false
    numLayers := 1
    tgt0 := [0, 0, 0]
    ref0 := 0
    decoderStep := fun _ out ref => (out.map (fun x => x + 1), ref)
    classEmbed := fun _ out => out
    coordEmbed := fun _ out _ => out }

/-- C1: the two `forward_pre_upsample` implementations always agree on
`pred_logits`, `pred_boxes`, and the one2one aux outputs, but their
one2many outputs differ whenever `num_queries_one2one` and
`num_queries_one2many` differ: the Plain version slices the one2many
head outputs from index `num_queries_one2many` instead of
`num_queries_one2one` (Plain's own `forward_post_upsample` and the
Backup version both use `num_queries_one2one`), refuting the claimed
equivalence at the concrete configuration `bugParams`. -/
theorem plainDETR_pre_upsample_one2many_bug :
    (∀ (T C R : Type) (p : DETRForwardParams T C R),
        (plainDETR_forward_pre_upsample p).pred_logits
            = (backupDETR_forward_pre_upsample p).pred_logits
        ∧ (plainDETR_forward_pre_upsample p).pred_boxes
            = (backupDETR_forward_pre_upsample p).pred_boxes
        ∧ (plainDETR_forward_pre_upsample p).aux_outputs
            = (backupDETR_forward_pre_upsample p).aux_outputs)
    ∧ (plainDETR_forward_pre_upsample bugParams).pred_logits_one2many
        = some [1]
    ∧ (backupDETR_forward_pre_upsample bugParams).pred_logits_one2many
        = some [1, 1]
    ∧ plainDETR_forward_pre_upsample bugParams
        ≠ backupDETR_forward_pre_upsample bugParams := by
  refine ⟨fun T C R p => ⟨rfl, rfl, rfl⟩, ?_, ?_, ?_⟩
  · rfl
  · rfl
  · decide
